import Mathlib

/-!
Verification of the entity-resolution and duplicate-detection core of the
Data-Analytics-Dashboard repository.

The Python sources are shallowly embedded as executable Lean definitions:

* `scripts/utils/name_normalization.py` (`calculate_name_similarity`,
  `find_best_match`), including a faithful model of the CPython
  `difflib.SequenceMatcher.ratio()` algorithm those functions call
  (with `isjunk = None`, so the junk set is empty; the autojunk
  "popular element" purge applies for second sequences of length ≥ 200);
* `scripts/analyze_name_matching.py` (`normalize_name`);
* `scripts/update/update_sales_person_links.py`
  (`normalize_name_for_matching`, `match_name_to_salesperson`,
  `update_jobs_salesperson_links`);
* `scripts/relationships/complete_quote_linkage.py`
  (`link_lead_status_to_booked_opportunities`);
* `scripts/fix_database_issues.py` (`link_jobs_to_customers`,
  `detect_duplicate_jobs`);
* the Level-1 duplicate detector of `src.analytics.job_duplicate_detection`,
  which is absent from the sources and is modelled from the specification.

Modelling conventions: Python/SQL strings are Lean `String`s manipulated as
`List Char`; nullable values are `Option`; float scores are `ℚ` (all score
arithmetic in the sources is exact dyadic/rational division and comparison);
timestamps are `ℤ`; `str.lower()`/SQL `LOWER` is ASCII `Char.toLower`;
SQL row updates with several join partners pick the first partner in table
order, and `ROW_NUMBER() ... ORDER BY created_at` breaks ties by original
row position (a deterministic refinement of the unspecified SQL orders).
-/

namespace DAD

/-- Whitespace test modelling Python `str.strip`/`str.split` and SQL `TRIM`. -/
def isWS (c : Char) : Bool := c.isWhitespace

/-- Python `str.strip()` on the character list of a string. -/
def pyStrip (l : List Char) : List Char :=
  ((l.dropWhile isWS).reverse.dropWhile isWS).reverse

/-- Python `str.lower()` (ASCII model). -/
def pyLower (l : List Char) : List Char := l.map Char.toLower

/-- `name.strip().lower()`, the normalization used throughout
`name_normalization.py`. -/
def pyNorm (l : List Char) : List Char := pyLower (pyStrip l)

/-- String-level version of `pyNorm`. -/
def pyNormS (s : String) : String := String.mk (pyNorm s.toList)

/-- Truthiness of an optional Python string (`not s`). -/
def strFalsy : Option String → Bool
  | none => true
  | some s => decide (s = "")

/-! ### difflib.SequenceMatcher (CPython 3.11), specialised to `isjunk = None`

`ratio()` is `2 * M / T` where `M` is the total size of the matching blocks
found by `get_matching_blocks` and `T` the total length of both sequences.
With `isjunk = None` the junk set `bjunk` is empty, so the two junk-extension
`while` loops of `find_longest_match` never fire and are omitted; the
"popular" autojunk purge of `__chain_b` (second sequence of length ≥ 200)
is kept.  The recursions are written with explicit fuel so that they are
structural; the fuel chosen at each entry point strictly exceeds the
number of iterations the Python loops can perform. -/

/-- Autojunk rule of `SequenceMatcher.__chain_b`: for `b` of length ≥ 200,
elements occurring more than `len(b) // 100 + 1` times are purged from
`b2j`. -/
def popularB (b : List Char) (c : Char) : Bool :=
  decide (200 ≤ b.length) && decide (b.length / 100 + 1 < b.count c)

/-- Positions `j` scanned by the inner loop of `find_longest_match` for the
row character `ai`: the entries of `b2j[ai]` (in increasing order) restricted
to `blo ≤ j < bhi` by the `continue`/`break` guards. -/
def rowJs (b : List Char) (blo bhi : ℕ) (ai : Char) : List ℕ :=
  if popularB b ai then []
  else (List.range b.length).filter fun j =>
    decide (blo ≤ j) && decide (j < bhi) && decide (b.getD j ' ' = ai)

/-- `k = newj2len[j] = j2len.get(j-1, 0) + 1` (`j2len.get(-1, 0) = 0` when
`j = 0`). -/
def rowK (prev : ℕ → ℕ) (j : ℕ) : ℕ :=
  (if j = 0 then 0 else prev (j - 1)) + 1

/-- The `newj2len` dictionary built while processing row character `ai`,
as a total function that is `0` outside the dictionary. -/
def dpRow (b : List Char) (blo bhi : ℕ) (prev : ℕ → ℕ) (ai : Char) : ℕ → ℕ :=
  fun j =>
    if (decide (blo ≤ j) && decide (j < bhi) && decide (j < b.length) &&
        decide (b.getD j ' ' = ai) && !popularB b ai) = true
    then rowK prev j else 0

/-- The running `(besti, bestj, bestsize)` triple of `find_longest_match`. -/
structure FlmBest where
  i : ℕ
  j : ℕ
  size : ℕ
deriving Repr, DecidableEq

/-- The best-match updates performed while scanning row `i`
(`if k > bestsize: besti, bestj, bestsize = i-k+1, j-k+1, k`). -/
def bestRow (prev : ℕ → ℕ) (i : ℕ) (js : List ℕ) (best : FlmBest) : FlmBest :=
  js.foldl
    (fun bst j =>
      let k := rowK prev j
      if bst.size < k then ⟨i + 1 - k, j + 1 - k, k⟩ else bst)
    best

/-- The outer `for i in range(alo, ahi)` loop of `find_longest_match`,
processing `n` rows starting at row `i`. -/
def dpLoop (a b : List Char) (blo bhi : ℕ) :
    ℕ → ℕ → FlmBest × (ℕ → ℕ) → FlmBest × (ℕ → ℕ)
  | _, 0, st => st
  | i, n + 1, (best, prev) =>
      let ai := a.getD i ' '
      dpLoop a b blo bhi (i + 1) n
        (bestRow prev i (rowJs b blo bhi ai) best, dpRow b blo bhi prev ai)

/-- First extension loop of `find_longest_match` (leftward over non-junk;
with `isjunk = None` every element is non-junk). -/
def extendLeft (a b : List Char) (alo blo : ℕ) : ℕ → FlmBest → FlmBest
  | 0, st => st
  | n + 1, st =>
      if (decide (alo < st.i) && decide (blo < st.j) &&
          decide (a.getD (st.i - 1) ' ' = b.getD (st.j - 1) ' ')) = true
      then extendLeft a b alo blo n ⟨st.i - 1, st.j - 1, st.size + 1⟩
      else st

/-- Second extension loop of `find_longest_match` (rightward). -/
def extendRight (a b : List Char) (ahi bhi : ℕ) : ℕ → FlmBest → FlmBest
  | 0, st => st
  | n + 1, st =>
      if (decide (st.i + st.size < ahi) && decide (st.j + st.size < bhi) &&
          decide (a.getD (st.i + st.size) ' ' = b.getD (st.j + st.size) ' ')) = true
      then extendRight a b ahi bhi n ⟨st.i, st.j, st.size + 1⟩
      else st

/-- `SequenceMatcher.find_longest_match(alo, ahi, blo, bhi)`. -/
def findLongestMatch (a b : List Char) (alo ahi blo bhi : ℕ) : FlmBest :=
  let st := dpLoop a b blo bhi alo (ahi - alo) (⟨alo, blo, 0⟩, fun _ => 0)
  extendRight a b ahi bhi (ahi + bhi) (extendLeft a b alo blo st.1.i st.1)

/-- Total size of the matching blocks of `a[alo:ahi]` / `b[blo:bhi]`: the
recursion underlying `get_matching_blocks` (the Python queue, final sort
and adjacent-block merge produce the same multiset of blocks, hence the
same total).  The first argument is fuel; each recursive call strictly
shrinks the combined interval length, so any fuel exceeding
`(ahi - alo) + (bhi - blo)` computes the fixpoint. -/
def matchTotalF (a b : List Char) : ℕ → ℕ → ℕ → ℕ → ℕ → ℕ
  | 0, _, _, _, _ => 0
  | n + 1, alo, ahi, blo, bhi =>
      let m := findLongestMatch a b alo ahi blo bhi
      if m.size = 0 then 0
      else
        matchTotalF a b n alo m.i blo m.j + m.size +
          matchTotalF a b n (m.i + m.size) ahi (m.j + m.size) bhi

/-- `sum(triple[-1] for triple in SequenceMatcher(None, a, b).get_matching_blocks())`. -/
def matchTotal (a b : List Char) : ℕ :=
  matchTotalF a b (a.length + b.length + 1) 0 a.length 0 b.length

/-- `SequenceMatcher(None, a, b).ratio()`; `_calculate_ratio` returns `1.0`
when both sequences are empty. -/
def seqRatio (a b : List Char) : ℚ :=
  if a.length + b.length = 0 then 1
  else 2 * (matchTotal a b : ℚ) / ((a.length : ℚ) + (b.length : ℚ))

/-! ### scripts/utils/name_normalization.py -/

/-- `calculate_name_similarity(name1, name2)`: `0.0` on falsy input,
`1.0` when the stripped-lowercased strings coincide, otherwise the
`SequenceMatcher` ratio of the normalized strings. -/
def calculate_name_similarity (name1 name2 : Option String) : ℚ :=
  if strFalsy name1 || strFalsy name2 then 0
  else
    let n1 := pyNorm (name1.getD "").toList
    let n2 := pyNorm (name2.getD "").toList
    if n1 = n2 then 1 else seqRatio n1 n2

/-- The candidate loop of `find_best_match`, carrying the running
`(best_score, best_id)` pair; on exhaustion the threshold check and tier
assignment of the function's tail are performed. -/
def findLoop (nn : List Char) (threshold : ℚ) :
    List (String × Option String) → ℚ → Option String →
      Option (Option String × ℚ × String)
  | [], bs, bid =>
      if threshold ≤ bs then
        some (bid, bs, if (9 : ℚ)/10 ≤ bs then "high" else "medium")
      else none
  | (cid, cname) :: rest, bs, bid =>
      if strFalsy cname then findLoop nn threshold rest bs bid
      else
        let nc := pyNorm (cname.getD "").toList
        if nn = nc then some (some cid, 1, "exact")
        else
          let s := calculate_name_similarity (some (String.mk nn)) (some (String.mk nc))
          if bs < s then findLoop nn threshold rest s (some cid)
          else findLoop nn threshold rest bs bid

/-- `find_best_match(name, candidate_list, threshold)`.  The returned id is
an `Option String` because, when every candidate scores `0` and the
threshold is non-positive, the Python function returns a tuple whose id is
still the initial `None`. -/
def find_best_match (name : String) (candidateList : List (String × Option String))
    (threshold : ℚ) : Option (Option String × ℚ × String) :=
  if name = "" || candidateList.isEmpty then none
  else findLoop (pyNorm name.toList) threshold candidateList 0 none

/-! ### scripts/analyze_name_matching.py -/

/-- `normalize_name(name)`: empty string on falsy input, else
`name.strip().lower()`. -/
def normalize_name (x : Option String) : String :=
  if strFalsy x then "" else String.mk (pyNorm (x.getD "").toList)

/-! ### scripts/update/update_sales_person_links.py -/

/-- Fuel-indexed scan implementing `re.sub(r'\([^)]*\)', '', name)`: at each
`(` the next `)` is sought; if found, the whole group is dropped, otherwise
the regex cannot match there (or anywhere later) and the rest is kept.
Fuel `≥ length` suffices since every step consumes at least one character. -/
def stripParensF : ℕ → List Char → List Char
  | 0, l => l
  | _ + 1, [] => []
  | n + 1, c :: rest =>
      if c = '(' then
        let inside := rest.takeWhile fun d => !decide (d = ')')
        if inside.length < rest.length then stripParensF n (rest.drop (inside.length + 1))
        else c :: rest
      else c :: stripParensF n rest

/-- `re.sub(r'\([^)]*\)', '', name)` on a character list. -/
def stripParens (l : List Char) : List Char := stripParensF l.length l

/-- Worker for `' '.join(s.split())`: `pend` records whether whitespace has
been seen since the last emitted character. -/
def cwGo : List Char → Bool → List Char
  | [], _ => []
  | c :: rest, pend =>
      if isWS c then cwGo rest true
      else if pend then ' ' :: c :: cwGo rest false
      else c :: cwGo rest false

/-- `' '.join(s.split())`: collapse internal whitespace runs to single
spaces, dropping leading and trailing whitespace. -/
def collapseWS (l : List Char) : List Char := cwGo (l.dropWhile isWS) false

/-- `normalize_name_for_matching(name)`: remove parenthesised content,
strip, and collapse whitespace runs (no case folding). -/
def normalize_name_for_matching (x : Option String) : String :=
  if strFalsy x then ""
  else String.mk (collapseWS (pyStrip (stripParens (x.getD "").toList)))

/-- `name.lower().strip()`. -/
def lowerStrip (l : List Char) : List Char := pyStrip (pyLower l)

/-- Substring test (`pat in text` for Python strings); the empty pattern is
contained in everything. -/
def startsWithL : List Char → List Char → Bool
  | _, [] => true
  | [], _ :: _ => false
  | c :: cs, p :: ps => decide (c = p) && startsWithL cs ps

/-- Contiguous-substring containment used by the partial-match step. -/
def hasSub (pat : List Char) : List Char → Bool
  | [] => pat.isEmpty
  | c :: rest => startsWithL (c :: rest) pat || hasSub pat rest

/-- `match_name_to_salesperson(name, salesperson_map)`: the five cascading
lookups (exact, normalized, case-insensitive, normalized case-insensitive,
partial containment).  The dictionary is modelled as an association list in
iteration order; `find?` mirrors the first-hit semantics of the loops (and
of dict lookup when names are distinct, as they are in `sales_persons`). -/
def match_name_to_salesperson (name : Option String)
    (m : List (String × String)) : Option String :=
  if strFalsy name then none
  else
    let nm := name.getD ""
    match m.find? fun kv => decide (kv.1 = nm) with
    | some kv => some kv.2
    | none =>
      let normalized := normalize_name_for_matching (some nm)
      match m.find? fun kv => decide (kv.1 = normalized) with
      | some kv => some kv.2
      | none =>
        let nameLower := lowerStrip nm.toList
        match m.find? fun kv => decide (lowerStrip kv.1.toList = nameLower) with
        | some kv => some kv.2
        | none =>
          let normalizedLower := pyLower normalized.toList
          match m.find? fun kv =>
              decide (pyLower (normalize_name_for_matching (some kv.1)).toList
                      = normalizedLower) with
          | some kv => some kv.2
          | none =>
            match m.find? fun kv =>
                hasSub normalizedLower (pyLower kv.1.toList) ||
                hasSub (pyLower kv.1.toList) normalizedLower with
            | some kv => some kv.2
            | none => none

/-- A row of the `jobs` table as read by `update_jobs_salesperson_links`. -/
structure SPJob where
  id : String
  sales_person_name : Option String
  sales_person_id : Option String
deriving Repr, DecidableEq, Inhabited

/-- Body of the non-dry-run row loop of `update_jobs_salesperson_links`:
a job with a non-null `sales_person_name` is re-matched, and its
`sales_person_id` is overwritten whenever a (non-empty) match exists and
differs from the stored value.  Rows with a null name are not selected and
stay unchanged. -/
def spRowUpdate (m : List (String × String)) (j : SPJob) : SPJob :=
  match j.sales_person_name with
  | none => j
  | some _ =>
    match match_name_to_salesperson j.sales_person_name m with
    | none => j
    | some mid =>
        if (decide (mid ≠ "") && decide (j.sales_person_id ≠ some mid)) = true
        then { j with sales_person_id := some mid } else j

/-- `update_jobs_salesperson_links` (non-dry-run): the row loop applied to
every fetched job. -/
def update_jobs_salesperson_links (m : List (String × String))
    (jobs : List SPJob) : List SPJob :=
  jobs.map (spRowUpdate m)

/-! ### scripts/relationships/complete_quote_linkage.py -/

/-- A `lead_status` row. -/
structure LSRec where
  id : String
  quote_number : Option String
  booked_opportunity_id : Option String
deriving Repr, DecidableEq, Inhabited

/-- A `booked_opportunities` row (fields used by the linkage scripts). -/
structure BORec where
  id : String
  quote_number : Option String
  customer_id : Option String
  email : Option String
  phone_number : Option String
  customer_name : Option String
deriving Repr, DecidableEq, Inhabited

/-- SQL join condition `ls.quote_number = bo.quote_number` (`NULL` compares
equal to nothing). -/
def quoteMatch (ls : LSRec) (bo : BORec) : Bool :=
  match ls.quote_number, bo.quote_number with
  | some q1, some q2 => decide (q1 = q2)
  | _, _ => false

/-- `link_lead_status_to_booked_opportunities`: a set-based update scoped to
`booked_opportunity_id IS NULL`; a row with several matching opportunities
receives the first one in table order. -/
def link_lead_status_to_booked_opportunities (bos : List BORec)
    (lss : List LSRec) : List LSRec :=
  lss.map fun r =>
    if r.booked_opportunity_id = none then
      match bos.find? fun bo => quoteMatch r bo with
      | some bo => { r with booked_opportunity_id := some bo.id }
      | none => r
    else r

/-! ### scripts/fix_database_issues.py -/

/-- A `jobs` row as read by `link_jobs_to_customers`. -/
structure JobRow where
  id : String
  customer_id : Option String
  customer_email : Option String
  customer_phone : Option String
  customer_name : Option String
deriving Repr, DecidableEq, Inhabited

/-- A `customers` row (fields used by strategy 2). -/
structure CustRec where
  id : String
  email : Option String
  phone : Option String
  name : Option String
deriving Repr, DecidableEq, Inhabited

/-- SQL `TRIM` (both ends; whitespace model shared with Python `strip`). -/
def sqlTrim (s : String) : String := String.mk (pyStrip s.toList)

/-- SQL `LOWER` (ASCII model). -/
def sqlLower (s : String) : String := String.mk (pyLower s.toList)

/-- `REGEXP_REPLACE(x, '[^0-9]', '', 'g')`. -/
def digitsOnly (s : String) : String := String.mk (s.toList.filter Char.isDigit)

/-- Strategy-1 join condition: an opportunity with a customer whose raw
`email`/`phone_number`/`customer_name` equals the trimmed job field. -/
def s1Cond (j : JobRow) (bo : BORec) : Bool :=
  decide (bo.customer_id ≠ none) &&
  ((match j.customer_email, bo.email with
    | some je, some be => decide (be = sqlTrim je)
    | _, _ => false) ||
   (match j.customer_phone, bo.phone_number with
    | some jp, some bp => decide (bp = sqlTrim jp)
    | _, _ => false) ||
   (match j.customer_name, bo.customer_name with
    | some jn, some bn => decide (bn = sqlTrim jn)
    | _, _ => false))

/-- Strategy-2 join condition: a customer whose stored `email` equals the
trimmed lower-cased job email, or whose stored `phone` equals the
digits-only trimmed job phone.  Normalization is applied to the job side
only. -/
def s2Cond (j : JobRow) (c : CustRec) : Bool :=
  (match j.customer_email, c.email with
   | some je, some ce => decide (ce = sqlTrim (sqlLower je))
   | _, _ => false) ||
  (match j.customer_phone, c.phone with
   | some jp, some cp => decide (cp = digitsOnly (sqlTrim jp))
   | _, _ => false)

/-- Strategy 1 of `link_jobs_to_customers`: set-based update scoped to
`customer_id IS NULL`; several matching opportunities are modelled as the
first in table order. -/
def strategy1 (bos : List BORec) (jobs : List JobRow) : List JobRow :=
  jobs.map fun j =>
    if j.customer_id = none then
      match bos.find? (s1Cond j) with
      | some bo => { j with customer_id := bo.customer_id }
      | none => j
    else j

/-- Strategy 2 of `link_jobs_to_customers`, scoped to rows still unlinked
after strategy 1. -/
def strategy2 (cs : List CustRec) (jobs : List JobRow) : List JobRow :=
  jobs.map fun j =>
    if j.customer_id = none then
      match cs.find? (s2Cond j) with
      | some c => { j with customer_id := some c.id }
      | none => j
    else j

/-- `link_jobs_to_customers`: strategy 1 (via booked opportunities) then
strategy 2 (direct customer match). -/
def link_jobs_to_customers (bos : List BORec) (cs : List CustRec)
    (jobs : List JobRow) : List JobRow :=
  strategy2 cs (strategy1 bos jobs)

/-- A `jobs` row as read by `detect_duplicate_jobs`; `created_at` is an
epoch timestamp and the estimated cost an exact numeric. -/
structure DupJob where
  job_id : Option String
  customer_id : Option String
  job_date : Option ℤ
  total_estimated_cost : Option ℤ
  created_at : ℤ
  is_duplicate : Bool
deriving Repr, DecidableEq, Inhabited

/-- Row `k` strictly precedes row `i` in the `ROW_NUMBER() ... ORDER BY
created_at` sense (ties broken by original row position). -/
def precedes (jobs : List DupJob) (i k : ℕ) : Bool :=
  decide ((jobs.getD k default).created_at < (jobs.getD i default).created_at) ||
  (decide ((jobs.getD k default).created_at = (jobs.getD i default).created_at) &&
   decide (k < i))

/-- First update of `detect_duplicate_jobs`: rows with `rn > 1` in the
partition of their (non-null) `job_id` and with `is_duplicate = false` are
marked. -/
def dupPass1 (jobs : List DupJob) : List DupJob :=
  (List.range jobs.length).map fun i =>
    let j := jobs.getD i default
    if (decide (j.is_duplicate = false) && decide (j.job_id ≠ none) &&
        ((List.range jobs.length).any fun k =>
          decide (k ≠ i) && decide ((jobs.getD k default).job_id = j.job_id) &&
          precedes jobs i k)) = true
    then { j with is_duplicate := true } else j

/-- Partition key of the second update: `(customer_id, job_date,
total_estimated_cost)`, all required non-null. -/
def simKey (j : DupJob) : Option (String × ℤ × ℤ) :=
  match j.customer_id, j.job_date, j.total_estimated_cost with
  | some c, some d, some t => some (c, d, t)
  | _, _, _ => none

/-- Second update of `detect_duplicate_jobs`: rows with `rn > 1` in the
partition of their (fully non-null) similarity key and with
`is_duplicate = false` are marked. -/
def dupPass2 (jobs : List DupJob) : List DupJob :=
  (List.range jobs.length).map fun i =>
    let j := jobs.getD i default
    if (decide (j.is_duplicate = false) && decide (simKey j ≠ none) &&
        ((List.range jobs.length).any fun k =>
          decide (k ≠ i) && decide (simKey (jobs.getD k default) = simKey j) &&
          precedes jobs i k)) = true
    then { j with is_duplicate := true } else j

/-- `detect_duplicate_jobs`: the `job_id` update followed by the
similarity update. -/
def detect_duplicate_jobs (jobs : List DupJob) : List DupJob :=
  dupPass2 (dupPass1 jobs)

/-! ### src.analytics.job_duplicate_detection (absent from the sources) -/

/-- A job record of the analytics batch detector (columns used by the
Level-1 pass and its test driver). -/
structure AJob where
  customer_id : Option String
  job_date : Option ℤ
  job_type : Option String
  created_at_utc : Option ℤ
  origin_address : Option String
  destination_address : Option String
  total_estimated_cost : Option ℤ
deriving Repr, DecidableEq, Inhabited

/-- The Level-1 collision tuple. -/
structure L1Key where
  customer_id : String
  job_date : ℤ
  job_type : String
  created_at_utc : ℤ
  origin_address : String
  destination_address : String
  total_estimated_cost : ℤ
deriving Repr, DecidableEq

/-- Modelled from the spec: the Level-1 collision key, the full tuple
`(customer_id, job_date, job_type, created_at_utc, origin_address,
destination_address, total_estimated_cost)`; records missing any required
field are excluded from the comparison set. -/
def level1Key (r : AJob) : Option L1Key :=
  match r.customer_id, r.job_date, r.job_type, r.created_at_utc,
        r.origin_address, r.destination_address, r.total_estimated_cost with
  | some c, some d, some t, some u, some o, some a, some e =>
      some ⟨c, d, t, u, o, a, e⟩
  | _, _, _, _, _, _, _ => none

/-- Record `k` was created strictly earlier than record `i` (ties on
`created_at_utc` broken by batch position). -/
def createdBeforeA (batch : List AJob) (i k : ℕ) : Bool :=
  decide ((batch.getD k default).created_at_utc.getD 0 <
          (batch.getD i default).created_at_utc.getD 0) ||
  (decide ((batch.getD k default).created_at_utc.getD 0 =
           (batch.getD i default).created_at_utc.getD 0) && decide (k < i))

/-- Modelled from the spec: `detect_level_1_exact_duplicates` of the missing
module `src.analytics.job_duplicate_detection`.  Each record is returned
with its `is_duplicate_level_1` flag and `duplicate_confidence`: a record is
flagged iff it has a complete key, collides with another record on that key,
and some colliding record was created earlier; flagged records carry the
fixed confidence `0.99`. -/
def detect_level_1_exact_duplicates (batch : List AJob) :
    List (AJob × Bool × ℚ) :=
  (List.range batch.length).map fun i =>
    let r := batch.getD i default
    let flag :=
      decide (level1Key r ≠ none) &&
      ((List.range batch.length).any fun k =>
        decide (k ≠ i) && decide (level1Key (batch.getD k default) = level1Key r) &&
        createdBeforeA batch i k)
    (r, flag, if flag then 99/100 else 0)

/-! ### Helper notions used in theorem statements -/

/-- The running maximum fuzzy score accumulated by the candidate scan of
`find_best_match`, starting from accumulator `q`. -/
def bestScoreFrom (nn : List Char) (l : List (String × Option String)) (q : ℚ) : ℚ :=
  l.foldl
    (fun bs c =>
      if strFalsy c.2 then bs
      else max bs (calculate_name_similarity (some (String.mk nn))
            (some (String.mk (pyNorm (c.2.getD "").toList)))))
    q

/-- The maximum fuzzy score of a candidate list against `name` (scores are
non-negative, so the Python initial accumulator `0.0` realises the max). -/
def bestScore (name : String) (l : List (String × Option String)) : ℚ :=
  bestScoreFrom (pyNorm name.toList) l 0

/-- Candidate `c` triggers the exact-match return for a query whose
normalization is `nn`. -/
def exactFor (nn : List Char) (c : String × Option String) : Prop :=
  strFalsy c.2 = false ∧ pyNorm (c.2.getD "").toList = nn

/-! ### Invariants of the `find_longest_match` dynamic program -/

/-- Invariant of the `j2len` dictionary before row `i` is processed: a
non-zero entry at `j` describes a common segment of that length ending at
`a`-index `i - 1` and `b`-index `j`. -/
def J2Inv (a b : List Char) (alo blo bhi i : ℕ) (prev : ℕ → ℕ) : Prop :=
  ∀ j, 0 < prev j →
    blo ≤ j ∧ j < bhi ∧ j < b.length ∧
    blo + prev j ≤ j + 1 ∧ alo + prev j ≤ i ∧
    ∀ t < prev j, a.getD (i - 1 - t) ' ' = b.getD (j - t) ' '

/-- Invariant of the running best triple: it stays inside the window, a
non-empty best is a genuine common segment, and an empty best still sits at
`(alo, blo)`. -/
def BestInv (a b : List Char) (alo ahi blo bhi : ℕ) (st : FlmBest) : Prop :=
  alo ≤ st.i ∧ blo ≤ st.j ∧
  (st.size = 0 → st.i = alo ∧ st.j = blo) ∧
  (0 < st.size →
    st.i + st.size ≤ ahi ∧ st.j + st.size ≤ bhi ∧
    ∀ t < st.size, a.getD (st.i + t) ' ' = b.getD (st.j + t) ' ')

/-! ### Lemmas about the dynamic program -/

theorem foldl_preserve {α β : Type} {P : β → Prop} {Q : α → Prop} {f : β → α → β}
    (hstep : ∀ (s : β) (x : α), Q x → P s → P (f s x)) :
    ∀ (l : List α), (∀ x ∈ l, Q x) → ∀ (s : β), P s → P (l.foldl f s) := by
  intro l
  induction l with
  | nil => intro _ s hs; simpa using hs
  | cons x xs ih =>
      intro hQ s hs
      simpa using ih (fun y hy => hQ y (List.mem_cons_of_mem x hy)) (f s x)
        (hstep s x (hQ x (List.mem_cons_self x xs)) hs)

theorem rowJs_mem {b : List Char} {blo bhi : ℕ} {c : Char} {j : ℕ}
    (h : j ∈ rowJs b blo bhi c) :
    blo ≤ j ∧ j < bhi ∧ j < b.length ∧ b.getD j ' ' = c := by
  unfold rowJs at h
  split at h
  · simp at h
  · simp only [List.mem_filter, List.mem_range, Bool.and_eq_true, decide_eq_true_eq] at h
    exact ⟨h.2.1.1, h.2.1.2, h.1, h.2.2⟩

theorem rowK_spec {a b : List Char} {alo blo bhi i : ℕ} {prev : ℕ → ℕ}
    (hinv : J2Inv a b alo blo bhi i prev) (hi : alo ≤ i) {j : ℕ}
    (hj : blo ≤ j) (hb : b.getD j ' ' = a.getD i ' ') :
    alo + rowK prev j ≤ i + 1 ∧ blo + rowK prev j ≤ j + 1 ∧
    ∀ u < rowK prev j, a.getD (i - u) ' ' = b.getD (j - u) ' ' := by
  by_cases h0 : j = 0
  · have hk : rowK prev j = 1 := by simp [rowK, h0]
    rw [hk]
    refine ⟨by omega, by omega, ?_⟩
    intro u hu
    have hu0 : u = 0 := by omega
    subst hu0
    simpa using hb.symm
  · by_cases hp : prev (j - 1) = 0
    · have hk : rowK prev j = 1 := by simp [rowK, h0, hp]
      rw [hk]
      refine ⟨by omega, by omega, ?_⟩
      intro u hu
      have hu0 : u = 0 := by omega
      subst hu0
      simpa using hb.symm
    · have hk : rowK prev j = prev (j - 1) + 1 := by simp [rowK, h0]
      rw [hk]
      obtain ⟨hb1, _, _, hb4, hb5, hb6⟩ := hinv (j - 1) (Nat.pos_of_ne_zero hp)
      refine ⟨by omega, by omega, ?_⟩
      intro u hu
      rcases Nat.eq_zero_or_pos u with hu0 | hu1
      · subst hu0
        simpa using hb.symm
      · have e1 : i - u = i - 1 - (u - 1) := by omega
        have e2 : j - u = j - 1 - (u - 1) := by omega
        rw [e1, e2]
        exact hb6 (u - 1) (by omega)

theorem dpRow_J2Inv {a b : List Char} {alo blo bhi i : ℕ} {prev : ℕ → ℕ}
    (hinv : J2Inv a b alo blo bhi i prev) (hi : alo ≤ i) :
    J2Inv a b alo blo bhi (i + 1) (dpRow b blo bhi prev (a.getD i ' ')) := by
  intro j hj
  unfold dpRow at hj ⊢
  by_cases hcond :
      (decide (blo ≤ j) && decide (j < bhi) && decide (j < b.length) &&
        decide (b.getD j ' ' = a.getD i ' ') && !popularB b (a.getD i ' ')) = true
  · rw [if_pos hcond] at hj ⊢
    simp only [Bool.and_eq_true, decide_eq_true_eq] at hcond
    obtain ⟨⟨⟨⟨hc1, hc2⟩, hc3⟩, hc4⟩, _⟩ := hcond
    obtain ⟨hs1, hs2, hs3⟩ := rowK_spec hinv hi hc1 hc4
    refine ⟨hc1, hc2, hc3, hs2, by omega, ?_⟩
    intro t ht
    have e : i + 1 - 1 - t = i - t := by omega
    rw [e]
    exact hs3 t ht
  · rw [if_neg hcond] at hj
    exact absurd hj (by omega)
example : DAD.matchTotal "ab".toList "bacb".toList = 2 := by decide
example : DAD.matchTotal "bacb".toList "ab".toList = 1 := by decide
example : DAD.matchTotal "abcdef".toList "abcde".toList = 5 := by decide
example : DAD.matchTotal "qabxcd".toList "abycdf".toList = 4 := by decide
example : DAD.matchTotal "ibrahim k".toList "brian k".toList = 5 := by decide
example : DAD.calculate_name_similarity (some "ab") (some "bacb") = 2/3 := by
  with_unfolding_all decide
example : DAD.find_best_match "Ibrahim K" [("id1", some "Brian K")] (3/4) = none := by
  with_unfolding_all decide
example : DAD.find_best_match "abcdef" [("id1", some "abcde")] (10/11) =
    some (some "id1", 10/11, "high") := by with_unfolding_all decide
example : DAD.find_best_match " Brian  K " [("id0", some "xq"), ("id1", some "brian  k")] (3/4) =
    some (some "id1", 1, "exact") := by with_unfolding_all decide
example : DAD.normalize_name (some "A  B ") = "a  b" := by decide
example : DAD.normalize_name_for_matching (some "Brian (Sales) K ") = "Brian K" := by decide
example : DAD.normalize_name_for_matching (some "a(b(c)d") = "ad" := by decide
example : DAD.normalize_name_for_matching (some "a(b)c)d") = "ac)d" := by decide
example : DAD.normalize_name_for_matching (some "Brian (K") = "Brian (K" := by decide
example : DAD.normalize_name_for_matching (some "  A   B  ") = "A B" := by decide
example :
    DAD.match_name_to_salesperson (some "brian k  ")
      [("Brian K", "sp1"), ("Alice", "sp2")] = some "sp1" := by decide
example :
    DAD.match_name_to_salesperson (some "Bri")
      [("Brian K", "sp1"), ("Alice", "sp2")] = some "sp1" := by decide
example :
    DAD.match_name_to_salesperson (some "Alice (remote)")
      [("Brian K", "sp1"), ("Alice", "sp2")] = some "sp2" := by decide
example :
    DAD.match_name_to_salesperson (some "Zed")
      [("Brian K", "sp1"), ("Alice", "sp2")] = none := by decide

theorem rowK_pos (prev : ℕ → ℕ) (j : ℕ) : 0 < rowK prev j := Nat.succ_pos _

theorem bestRow_BestInv {a b : List Char} {alo ahi blo bhi i : ℕ} {prev : ℕ → ℕ}
    {best : FlmBest} (hinv : J2Inv a b alo blo bhi i prev) (hi : alo ≤ i)
    (hia : i < ahi) (hbest : BestInv a b alo ahi blo bhi best) :
    BestInv a b alo ahi blo bhi
      (bestRow prev i (rowJs b blo bhi (a.getD i ' ')) best) := by
  unfold bestRow
  refine foldl_preserve ?_ _ (fun j hj => rowJs_mem hj) best hbest
  intro st j hQ hP
  obtain ⟨hq1, hq2, _, hq4⟩ := hQ
  by_cases hlt : st.size < rowK prev j
  · simp only [if_pos hlt]
    obtain ⟨hs1, hs2, hs3⟩ := rowK_spec hinv hi hq1 hq4
    have hkpos := rowK_pos prev j
    refine ⟨?_, ?_, ?_, ?_⟩
    · show alo ≤ i + 1 - rowK prev j
      omega
    · show blo ≤ j + 1 - rowK prev j
      omega
    · intro h
      exact absurd h (by show rowK prev j ≠ 0; omega)
    · intro _
      refine ⟨?_, ?_, ?_⟩
      · show i + 1 - rowK prev j + rowK prev j ≤ ahi
        omega
      · show j + 1 - rowK prev j + rowK prev j ≤ bhi
        omega
      · intro t ht
        show a.getD (i + 1 - rowK prev j + t) ' ' = b.getD (j + 1 - rowK prev j + t) ' '
        have ht' : t < rowK prev j := ht
        have e1 : i + 1 - rowK prev j + t = i - (rowK prev j - 1 - t) := by omega
        have e2 : j + 1 - rowK prev j + t = j - (rowK prev j - 1 - t) := by omega
        rw [e1, e2]
        exact hs3 _ (by omega)
  · simpa only [if_neg hlt] using hP

theorem dpLoop_BestInv {a b : List Char} {alo ahi blo bhi : ℕ} :
    ∀ (n i : ℕ) (best : FlmBest) (prev : ℕ → ℕ),
      alo ≤ i → i + n ≤ ahi →
      J2Inv a b alo blo bhi i prev →
      BestInv a b alo ahi blo bhi best →
      BestInv a b alo ahi blo bhi (dpLoop a b blo bhi i n (best, prev)).1 := by
  intro n
  induction n with
  | zero => intro i best prev _ _ _ hbest; simpa [dpLoop] using hbest
  | succ n ih =>
      intro i best prev hi hn hinv hbest
      rw [dpLoop]
      exact ih (i + 1) _ _ (by omega) (by omega) (dpRow_J2Inv hinv hi)
        (bestRow_BestInv hinv hi (by omega) hbest)

theorem extendLeft_BestInv {a b : List Char} {alo ahi blo bhi : ℕ} :
    ∀ (n : ℕ) (st : FlmBest), BestInv a b alo ahi blo bhi st →
      BestInv a b alo ahi blo bhi (extendLeft a b alo blo n st) := by
  intro n
  induction n with
  | zero => intro st h; simpa [extendLeft] using h
  | succ n ih =>
      intro st h
      rw [extendLeft]
      by_cases hc :
          (decide (alo < st.i) && decide (blo < st.j) &&
            decide (a.getD (st.i - 1) ' ' = b.getD (st.j - 1) ' ')) = true
      · rw [if_pos hc]
        simp only [Bool.and_eq_true, decide_eq_true_eq] at hc
        obtain ⟨⟨hc1, hc2⟩, hc3⟩ := hc
        obtain ⟨h1, h2, h3, h4⟩ := h
        have hsz : 0 < st.size := by
          rcases Nat.eq_zero_or_pos st.size with h0 | h0
          · exact absurd (h3 h0).1 (by omega)
          · exact h0
        obtain ⟨hb1, hb2, hb3⟩ := h4 hsz
        apply ih
        refine ⟨?_, ?_, ?_, ?_⟩
        · show alo ≤ st.i - 1
          omega
        · show blo ≤ st.j - 1
          omega
        · intro hz
          exact absurd hz (by show st.size + 1 ≠ 0; omega)
        · intro _
          refine ⟨?_, ?_, ?_⟩
          · show st.i - 1 + (st.size + 1) ≤ ahi
            omega
          · show st.j - 1 + (st.size + 1) ≤ bhi
            omega
          · intro t ht
            have ht' : t < st.size + 1 := ht
            show a.getD (st.i - 1 + t) ' ' = b.getD (st.j - 1 + t) ' '
            rcases Nat.eq_zero_or_pos t with ht0 | ht1
            · subst ht0
              simpa using hc3
            · have e1 : st.i - 1 + t = st.i + (t - 1) := by omega
              have e2 : st.j - 1 + t = st.j + (t - 1) := by omega
              rw [e1, e2]
              exact hb3 _ (by omega)
      · rw [if_neg hc]
        exact h

theorem extendRight_BestInv {a b : List Char} {alo ahi blo bhi : ℕ} :
    ∀ (n : ℕ) (st : FlmBest), BestInv a b alo ahi blo bhi st →
      BestInv a b alo ahi blo bhi (extendRight a b ahi bhi n st) := by
  intro n
  induction n with
  | zero => intro st h; simpa [extendRight] using h
  | succ n ih =>
      intro st h
      rw [extendRight]
      by_cases hc :
          (decide (st.i + st.size < ahi) && decide (st.j + st.size < bhi) &&
            decide (a.getD (st.i + st.size) ' ' = b.getD (st.j + st.size) ' ')) = true
      · rw [if_pos hc]
        simp only [Bool.and_eq_true, decide_eq_true_eq] at hc
        obtain ⟨⟨hc1, hc2⟩, hc3⟩ := hc
        obtain ⟨h1, h2, h3, h4⟩ := h
        apply ih
        refine ⟨h1, h2, ?_, ?_⟩
        · intro hz
          exact absurd hz (by show st.size + 1 ≠ 0; omega)
        · intro _
          refine ⟨?_, ?_, ?_⟩
          · show st.i + (st.size + 1) ≤ ahi
            omega
          · show st.j + (st.size + 1) ≤ bhi
            omega
          · intro t ht
            have ht' : t < st.size + 1 := ht
            show a.getD (st.i + t) ' ' = b.getD (st.j + t) ' '
            by_cases hts : t = st.size
            · subst hts
              exact hc3
            · rcases Nat.eq_zero_or_pos st.size with h0 | h0
              · exact absurd ht' (by omega)
              · exact (h4 h0).2.2 t (by omega)
      · rw [if_neg hc]
        exact h

theorem findLongestMatch_spec (a b : List Char) (alo ahi blo bhi : ℕ) :
    BestInv a b alo ahi blo bhi (findLongestMatch a b alo ahi blo bhi) := by
  have hinit : BestInv a b alo ahi blo bhi ⟨alo, blo, 0⟩ :=
    ⟨le_refl _, le_refl _, fun _ => ⟨rfl, rfl⟩, fun h => absurd h (by simp)⟩
  have hJ : J2Inv a b alo blo bhi alo (fun _ => 0) := fun j hj => absurd hj (by simp)
  unfold findLongestMatch
  apply extendRight_BestInv
  apply extendLeft_BestInv
  rcases le_or_lt alo ahi with hle | hlt
  · exact dpLoop_BestInv (ahi - alo) alo _ _ (le_refl _) (by omega) hJ hinit
  · have h0 : ahi - alo = 0 := by omega
    rw [h0]
    simpa [dpLoop] using hinit

theorem matchTotalF_le (a b : List Char) :
    ∀ (n alo ahi blo bhi : ℕ),
      matchTotalF a b n alo ahi blo bhi ≤ ahi - alo ∧
      matchTotalF a b n alo ahi blo bhi ≤ bhi - blo := by
  intro n
  induction n with
  | zero => intro alo ahi blo bhi; simp [matchTotalF]
  | succ n ih =>
      intro alo ahi blo bhi
      obtain ⟨g1, g2, _, g4⟩ := findLongestMatch_spec a b alo ahi blo bhi
      rw [matchTotalF]
      by_cases hz : (findLongestMatch a b alo ahi blo bhi).size = 0
      · rw [if_pos hz]
        omega
      · rw [if_neg hz]
        set m := findLongestMatch a b alo ahi blo bhi with hm
        obtain ⟨gb1, gb2, _⟩ := g4 (Nat.pos_of_ne_zero hz)
        have hL := ih alo m.i blo m.j
        have hR := ih (m.i + m.size) ahi (m.j + m.size) bhi
        omega

theorem matchTotalF_slices (a b : List Char) :
    ∀ (n alo ahi blo bhi : ℕ),
      matchTotalF a b n alo ahi blo bhi = ahi - alo →
      matchTotalF a b n alo ahi blo bhi = bhi - blo →
      ∀ t, t < ahi - alo → a.getD (alo + t) ' ' = b.getD (blo + t) ' ' := by
  intro n
  induction n with
  | zero =>
      intro alo ahi blo bhi h1 _ t ht
      simp only [matchTotalF] at h1
      exact absurd ht (by omega)
  | succ n ih =>
      intro alo ahi blo bhi hA hB t ht
      obtain ⟨g1, g2, _, g4⟩ := findLongestMatch_spec a b alo ahi blo bhi
      rw [matchTotalF] at hA hB
      by_cases hz : (findLongestMatch a b alo ahi blo bhi).size = 0
      · rw [if_pos hz] at hA
        exact absurd ht (by omega)
      · rw [if_neg hz] at hA hB
        set m := findLongestMatch a b alo ahi blo bhi with hm
        obtain ⟨gb1, gb2, gb3⟩ := g4 (Nat.pos_of_ne_zero hz)
        have hL := matchTotalF_le a b n alo m.i blo m.j
        have hR := matchTotalF_le a b n (m.i + m.size) ahi (m.j + m.size) bhi
        have hLa : matchTotalF a b n alo m.i blo m.j = m.i - alo := by omega
        have hLb : matchTotalF a b n alo m.i blo m.j = m.j - blo := by omega
        have hRa : matchTotalF a b n (m.i + m.size) ahi (m.j + m.size) bhi
            = ahi - (m.i + m.size) := by omega
        have hRb : matchTotalF a b n (m.i + m.size) ahi (m.j + m.size) bhi
            = bhi - (m.j + m.size) := by omega
        by_cases ht1 : t < m.i - alo
        · exact ih alo m.i blo m.j hLa hLb t ht1
        · by_cases ht2 : t < m.i - alo + m.size
          · have e1 : alo + t = m.i + (t - (m.i - alo)) := by omega
            have e2 : blo + t = m.j + (t - (m.i - alo)) := by omega
            rw [e1, e2]
            exact gb3 _ (by omega)
          · have e1 : alo + t = m.i + m.size + (t - (m.i - alo) - m.size) := by omega
            have e2 : blo + t = m.j + m.size + (t - (m.i - alo) - m.size) := by omega
            rw [e1, e2]
            exact ih (m.i + m.size) ahi (m.j + m.size) bhi hRa hRb _ (by omega)

theorem matchTotal_le_left (a b : List Char) : matchTotal a b ≤ a.length := by
  have h := (matchTotalF_le a b (a.length + b.length + 1) 0 a.length 0 b.length).1
  simpa [matchTotal] using h

theorem matchTotal_le_right (a b : List Char) : matchTotal a b ≤ b.length := by
  have h := (matchTotalF_le a b (a.length + b.length + 1) 0 a.length 0 b.length).2
  simpa [matchTotal] using h

theorem matchTotal_full_eq {a b : List Char}
    (h1 : matchTotal a b = a.length) (h2 : matchTotal a b = b.length) : a = b := by
  have hlen : a.length = b.length := by omega
  have hs := matchTotalF_slices a b (a.length + b.length + 1) 0 a.length 0 b.length
    (by simpa [matchTotal] using h1) (by simpa [matchTotal] using h2)
  apply List.ext_getElem hlen
  intro i hi1 hi2
  have hd := hs i (by omega)
  simp only [Nat.zero_add] at hd
  rw [List.getD_eq_getElem a ' ' hi1, List.getD_eq_getElem b ' ' hi2] at hd
  exact hd

theorem seqRatio_nonneg (a b : List Char) : 0 ≤ seqRatio a b := by
  unfold seqRatio
  split
  · norm_num
  · positivity

theorem seqRatio_le_one (a b : List Char) : seqRatio a b ≤ 1 := by
  unfold seqRatio
  split
  · norm_num
  · rename_i h
    have hM1 := matchTotal_le_left a b
    have hM2 := matchTotal_le_right a b
    have hpos : (0 : ℚ) < (a.length : ℚ) + (b.length : ℚ) := by
      have : 0 < a.length + b.length := Nat.pos_of_ne_zero h
      exact_mod_cast Nat.cast_pos.mpr this
    rw [div_le_one hpos]
    have h2 : 2 * matchTotal a b ≤ a.length + b.length := by omega
    exact_mod_cast h2

theorem seqRatio_lt_one {a b : List Char} (hne : a ≠ b) : seqRatio a b < 1 := by
  unfold seqRatio
  split
  · rename_i h
    exfalso
    have ha : a = [] := List.length_eq_zero.mp (by omega)
    have hb : b = [] := List.length_eq_zero.mp (by omega)
    exact hne (ha.trans hb.symm)
  · rename_i h
    have hM1 := matchTotal_le_left a b
    have hM2 := matchTotal_le_right a b
    have hpos : (0 : ℚ) < (a.length : ℚ) + (b.length : ℚ) := by
      have : 0 < a.length + b.length := Nat.pos_of_ne_zero h
      exact_mod_cast Nat.cast_pos.mpr this
    rw [div_lt_one hpos]
    have h2 : 2 * matchTotal a b < a.length + b.length := by
      rcases Nat.lt_or_ge (2 * matchTotal a b) (a.length + b.length) with h' | h'
      · exact h'
      · exact absurd (matchTotal_full_eq (by omega) (by omega)) hne
    exact_mod_cast h2

theorem calcSim_falsy {x y : Option String} (h : (strFalsy x || strFalsy y) = true) :
    calculate_name_similarity x y = 0 := by
  simp [calculate_name_similarity, h]

theorem calcSim_not_falsy {x y : Option String} (h : (strFalsy x || strFalsy y) = false) :
    calculate_name_similarity x y =
      (if pyNorm (x.getD "").toList = pyNorm (y.getD "").toList then (1 : ℚ)
       else seqRatio (pyNorm (x.getD "").toList) (pyNorm (y.getD "").toList)) := by
  simp [calculate_name_similarity, h]

theorem calcSim_nonneg (x y : Option String) : 0 ≤ calculate_name_similarity x y := by
  cases hf : (strFalsy x || strFalsy y) with
  | true => rw [calcSim_falsy hf]
  | false =>
      rw [calcSim_not_falsy hf]
      split
      · norm_num
      · exact seqRatio_nonneg _ _

theorem calcSim_le_one (x y : Option String) : calculate_name_similarity x y ≤ 1 := by
  cases hf : (strFalsy x || strFalsy y) with
  | true => rw [calcSim_falsy hf]; norm_num
  | false =>
      rw [calcSim_not_falsy hf]
      split
      · norm_num
      · exact seqRatio_le_one _ _

theorem calcSim_eq_one_iff {x y : Option String}
    (hf : (strFalsy x || strFalsy y) = false) :
    (calculate_name_similarity x y = 1 ↔
      pyNorm (x.getD "").toList = pyNorm (y.getD "").toList) := by
  rw [calcSim_not_falsy hf]
  split
  · rename_i h
    simpa using h
  · rename_i h
    constructor
    · intro h1
      exact absurd h1 (ne_of_lt (seqRatio_lt_one h))
    · intro h1
      exact absurd h1 h

theorem if_lt_eq_max (p q : ℚ) : (if p < q then q else p) = max p q := by
  rcases lt_or_ge p q with h | h
  · simp [h, max_eq_right h.le]
  · simp [not_lt.mpr h, max_eq_left h]

theorem findLoop_nil (nn : List Char) (th bs : ℚ) (bid : Option String) :
    findLoop nn th [] bs bid =
      if th ≤ bs then
        some (bid, bs, if (9 : ℚ)/10 ≤ bs then "high" else "medium")
      else none := rfl

theorem findLoop_cons (nn : List Char) (th bs : ℚ) (bid : Option String)
    (cid : String) (cname : Option String) (rest : List (String × Option String)) :
    findLoop nn th ((cid, cname) :: rest) bs bid =
      if strFalsy cname = true then findLoop nn th rest bs bid
      else if nn = pyNorm (cname.getD "").toList then some (some cid, 1, "exact")
      else if bs < calculate_name_similarity (some (String.mk nn))
                (some (String.mk (pyNorm (cname.getD "").toList))) then
        findLoop nn th rest
          (calculate_name_similarity (some (String.mk nn))
            (some (String.mk (pyNorm (cname.getD "").toList)))) (some cid)
      else findLoop nn th rest bs bid := rfl

theorem bestScoreFrom_nil (nn : List Char) (q : ℚ) : bestScoreFrom nn [] q = q := rfl

theorem bestScoreFrom_cons (nn : List Char) (q : ℚ) (cid : String)
    (cname : Option String) (rest : List (String × Option String)) :
    bestScoreFrom nn ((cid, cname) :: rest) q =
      bestScoreFrom nn rest
        (if strFalsy cname = true then q
         else max q (calculate_name_similarity (some (String.mk nn))
            (some (String.mk (pyNorm (cname.getD "").toList))))) := rfl

theorem findLoop_none_iff (nn : List Char) (th : ℚ) :
    ∀ (l : List (String × Option String)) (bs : ℚ) (bid : Option String),
      (∀ c ∈ l, ¬ exactFor nn c) →
      (findLoop nn th l bs bid = none ↔ bestScoreFrom nn l bs < th) := by
  intro l
  induction l with
  | nil =>
      intro bs bid _
      rw [findLoop_nil, bestScoreFrom_nil]
      split
      · rename_i h
        simp [not_lt.mpr h]
      · rename_i h
        simpa using lt_of_not_ge h
  | cons c rest ih =>
      intro bs bid hne
      obtain ⟨cid, cname⟩ := c
      rw [findLoop_cons, bestScoreFrom_cons]
      by_cases hf : strFalsy cname = true
      · rw [if_pos hf, if_pos hf]
        exact ih bs bid fun x hx => hne x (List.mem_cons_of_mem _ hx)
      · have hf' : strFalsy cname = false := by
          simpa using hf
        have hnx : ¬ (nn = pyNorm (cname.getD "").toList) := by
          intro h
          exact hne (cid, cname) (List.mem_cons_self _ _) ⟨hf', h.symm⟩
        rw [if_neg hf, if_neg hf, if_neg hnx, ← if_lt_eq_max]
        split
        · exact ih _ (some cid) fun x hx => hne x (List.mem_cons_of_mem _ hx)
        · exact ih _ bid fun x hx => hne x (List.mem_cons_of_mem _ hx)

theorem findLoop_some_shape (nn : List Char) (th : ℚ) :
    ∀ (l : List (String × Option String)) (bs : ℚ) (bid : Option String)
      (b' : Option String) (s : ℚ) (t : String),
      (∀ c ∈ l, ¬ exactFor nn c) →
      findLoop nn th l bs bid = some (b', s, t) →
      s = bestScoreFrom nn l bs ∧ th ≤ s ∧
        t = (if (9 : ℚ)/10 ≤ s then "high" else "medium") := by
  intro l
  induction l with
  | nil =>
      intro bs bid b' s t _ hres
      rw [bestScoreFrom_nil]
      rw [findLoop_nil] at hres
      split at hres
      · rename_i h
        simp only [Option.some.injEq, Prod.mk.injEq] at hres
        obtain ⟨h1, h2, h3⟩ := hres
        subst h2
        exact ⟨rfl, h, h3.symm⟩
      · exact absurd hres (by simp)
  | cons c rest ih =>
      intro bs bid b' s t hne hres
      obtain ⟨cid, cname⟩ := c
      rw [findLoop_cons] at hres
      rw [bestScoreFrom_cons]
      by_cases hf : strFalsy cname = true
      · rw [if_pos hf] at hres
        rw [if_pos hf]
        exact ih bs bid b' s t (fun x hx => hne x (List.mem_cons_of_mem _ hx)) hres
      · have hf' : strFalsy cname = false := by
          simpa using hf
        have hnx : ¬ (nn = pyNorm (cname.getD "").toList) := by
          intro h
          exact hne (cid, cname) (List.mem_cons_self _ _) ⟨hf', h.symm⟩
        rw [if_neg hf, if_neg hnx] at hres
        rw [if_neg hf, ← if_lt_eq_max]
        split at hres
        · rename_i hbr
          rw [if_pos hbr]
          exact ih _ (some cid) b' s t (fun x hx => hne x (List.mem_cons_of_mem _ hx)) hres
        · rename_i hbr
          rw [if_neg hbr]
          exact ih _ bid b' s t (fun x hx => hne x (List.mem_cons_of_mem _ hx)) hres

theorem strFalsy_false_elim {cname : Option String} (hf : strFalsy cname = false) :
    ∃ nm, cname = some nm ∧ nm ≠ "" := by
  cases cname with
  | none => simp [strFalsy] at hf
  | some nm =>
      refine ⟨nm, rfl, ?_⟩
      simpa [strFalsy] using hf

theorem findLoop_id_good (nn : List Char) (th : ℚ) :
    ∀ (l : List (String × Option String)) (bs : ℚ) (bid b' : Option String)
      (s : ℚ) (t : String),
      findLoop nn th l bs bid = some (b', s, t) →
      ∀ i, b' = some i →
        bid = some i ∨ ∃ c ∈ l, c.1 = i ∧ ∃ nm, c.2 = some nm ∧ nm ≠ "" := by
  intro l
  induction l with
  | nil =>
      intro bs bid b' s t hres i hb
      rw [findLoop_nil] at hres
      split at hres
      · simp only [Option.some.injEq, Prod.mk.injEq] at hres
        exact Or.inl (hres.1.trans hb)
      · exact absurd hres (by simp)
  | cons c rest ih =>
      intro bs bid b' s t hres i hb
      obtain ⟨cid, cname⟩ := c
      rw [findLoop_cons] at hres
      by_cases hf : strFalsy cname = true
      · rw [if_pos hf] at hres
        rcases ih _ _ _ _ _ hres i hb with h | ⟨x, hx, hx2⟩
        · exact Or.inl h
        · exact Or.inr ⟨x, List.mem_cons_of_mem _ hx, hx2⟩
      · have hf' : strFalsy cname = false := by simpa using hf
        obtain ⟨nm, hnm, hnm2⟩ := strFalsy_false_elim hf'
        rw [if_neg hf] at hres
        by_cases hx : nn = pyNorm (cname.getD "").toList
        · rw [if_pos hx] at hres
          simp only [Option.some.injEq, Prod.mk.injEq] at hres
          have hcid : cid = i := by
            have := hres.1.trans hb
            exact Option.some.inj this
          exact Or.inr ⟨(cid, cname), List.mem_cons_self _ _, hcid, nm, hnm, hnm2⟩
        · rw [if_neg hx] at hres
          split at hres
          · rcases ih _ _ _ _ _ hres i hb with h | ⟨x, hx2, hx3⟩
            · have hcid : cid = i := Option.some.inj h
              exact Or.inr ⟨(cid, cname), List.mem_cons_self _ _, hcid, nm, hnm, hnm2⟩
            · exact Or.inr ⟨x, List.mem_cons_of_mem _ hx2, hx3⟩
          · rcases ih _ _ _ _ _ hres i hb with h | ⟨x, hx2, hx3⟩
            · exact Or.inl h
            · exact Or.inr ⟨x, List.mem_cons_of_mem _ hx2, hx3⟩

theorem findLoop_exact (nn : List Char) (th : ℚ) :
    ∀ (pre : List (String × Option String)) (cid : String) (cnm : String)
      (post : List (String × Option String)) (bs : ℚ) (bid : Option String),
      (∀ c ∈ pre, ¬ exactFor nn c) →
      cnm ≠ "" → pyNorm cnm.toList = nn →
      findLoop nn th (pre ++ (cid, some cnm) :: post) bs bid =
        some (some cid, 1, "exact") := by
  intro pre
  induction pre with
  | nil =>
      intro cid cnm post bs bid _ hne hnorm
      rw [List.nil_append, findLoop_cons]
      have hf : ¬ (strFalsy (some cnm) = true) := by
        simp [strFalsy, hne]
      rw [if_neg hf]
      have hx : nn = pyNorm ((some cnm).getD "").toList := by
        simpa using hnorm.symm
      rw [if_pos hx]
  | cons c pre ih =>
      intro cid cnm post bs bid hpre hne hnorm
      obtain ⟨xid, xnm⟩ := c
      rw [List.cons_append, findLoop_cons]
      have hrest : ∀ x ∈ pre, ¬ exactFor nn x :=
        fun x hx => hpre x (List.mem_cons_of_mem _ hx)
      by_cases hf : strFalsy xnm = true
      · rw [if_pos hf]
        exact ih cid cnm post bs bid hrest hne hnorm
      · have hf' : strFalsy xnm = false := by simpa using hf
        have hnx : ¬ (nn = pyNorm (xnm.getD "").toList) := by
          intro h
          exact hpre (xid, xnm) (List.mem_cons_self _ _) ⟨hf', h.symm⟩
        rw [if_neg hf, if_neg hnx]
        split
        · exact ih cid cnm post _ _ hrest hne hnorm
        · exact ih cid cnm post _ _ hrest hne hnorm

theorem toList_mk (l : List Char) : (String.mk l).toList = l := rfl

theorem pyStrip_decomp (l : List Char) :
    ∃ u v : List Char, l = u ++ pyStrip l ++ v ∧
      (∀ c ∈ u, isWS c = true) ∧ (∀ c ∈ v, isWS c = true) := by
  refine ⟨l.takeWhile isWS, ((l.dropWhile isWS).reverse.takeWhile isWS).reverse,
    ?_, ?_, ?_⟩
  · conv_lhs => rw [← List.takeWhile_append_dropWhile (p := isWS) (l := l)]
    rw [List.append_assoc]
    congr 1
    conv_lhs => rw [← List.reverse_reverse (l.dropWhile isWS),
      ← List.takeWhile_append_dropWhile (p := isWS) (l := (l.dropWhile isWS).reverse),
      List.reverse_append]
    rfl
  · intro c hc
    exact List.mem_takeWhile_imp hc
  · intro c hc
    rw [List.mem_reverse] at hc
    exact List.mem_takeWhile_imp hc

theorem getD_range_map {α : Type} [Inhabited α] (f : ℕ → α) (n i : ℕ) (h : i < n) :
    ((List.range n).map f).getD i default = f i := by
  have hlen : i < ((List.range n).map f).length := by simpa using h
  rw [List.getD_eq_getElem _ _ hlen]
  simp

theorem getD_map_of_lt {α : Type} [Inhabited α] (f : α → α) (l : List α) (i : ℕ)
    (h : i < l.length) :
    (l.map f).getD i default = f (l.getD i default) := by
  have hlen : i < (l.map f).length := by simpa using h
  rw [List.getD_eq_getElem _ _ hlen, List.getD_eq_getElem _ _ h]
  simp

/-- C3 (counterexample): `calculate_name_similarity` is not symmetric —
`similarity("ab", "bacb") = 2/3` while `similarity("bacb", "ab") = 1/3`,
because `SequenceMatcher`'s greedy block matching depends on the argument
order. -/
theorem claim_C3_counterexample :
    calculate_name_similarity (some "ab") (some "bacb") = 2/3 ∧
    calculate_name_similarity (some "bacb") (some "ab") = 1/3 ∧
    calculate_name_similarity (some "ab") (some "bacb") ≠
      calculate_name_similarity (some "bacb") (some "ab") := by
  with_unfolding_all decide

/-- C3 (amended): `similarity(a, a) = 1.0` for every non-empty `a`, and
`similarity(a, b) = similarity(b, a)` whenever either input is empty/missing
or the normalized strings are equal; full symmetry does not hold. -/
theorem claim_C3_amended :
    (∀ a : String, a ≠ "" → calculate_name_similarity (some a) (some a) = 1) ∧
    (∀ x y : Option String,
      (strFalsy x = true ∨ strFalsy y = true ∨
        pyNorm (x.getD "").toList = pyNorm (y.getD "").toList) →
      calculate_name_similarity x y = calculate_name_similarity y x) := by
  constructor
  · intro a ha
    have hf : (strFalsy (some a) || strFalsy (some a)) = false := by
      simp [strFalsy, ha]
    rw [calcSim_not_falsy hf, if_pos rfl]
  · intro x y h
    by_cases hx : strFalsy x = true
    · rw [calcSim_falsy (by simp [hx]), calcSim_falsy (by simp [hx])]
    · by_cases hy : strFalsy y = true
      · rw [calcSim_falsy (by simp [hy]), calcSim_falsy (by simp [hy])]
      · have hn : pyNorm (x.getD "").toList = pyNorm (y.getD "").toList := by
          rcases h with h | h | h
          · exact absurd h hx
          · exact absurd h hy
          · exact h
        have hfx : strFalsy x = false := by simpa using hx
        have hfy : strFalsy y = false := by simpa using hy
        rw [calcSim_not_falsy (by simp [hfx, hfy]),
          calcSim_not_falsy (by simp [hfx, hfy]), if_pos hn, if_pos hn.symm]

/-- C3 (witness): the amended statement at concrete inputs — reflexivity on
`"Brian"`, and symmetry for the pair `("x", " X ")` whose normalizations
agree. -/
theorem claim_C3_witness :
    calculate_name_similarity (some "Brian") (some "Brian") = 1 ∧
    calculate_name_similarity (some "x") (some " X ") =
      calculate_name_similarity (some " X ") (some "x") :=
  ⟨claim_C3_amended.1 "Brian" (by decide),
   claim_C3_amended.2 (some "x") (some " X ") (Or.inr (Or.inr (by decide)))⟩

/-- C4 (counterexample): `normalize_name` does not collapse internal
whitespace runs — `normalize_name("A  B")` is `"a  b"`, not `"a b"`. -/
theorem claim_C4_counterexample :
    normalize_name (some "A  B") = "a  b" ∧ normalize_name (some "A  B") ≠ "a b" := by
  decide

/-- C4 (amended): `normalize_name` is a total deterministic function that
returns the empty string on null or empty input, and otherwise lower-cases
the string stripped of leading and trailing whitespace: the input splits as
whitespace ++ core ++ whitespace with the result equal to the lower-cased
core (internal whitespace is preserved, not collapsed). -/
theorem claim_C4_amended :
    normalize_name none = "" ∧ normalize_name (some "") = "" ∧
    ∀ s : String, ∃ u v : List Char,
      s.toList = u ++ pyStrip s.toList ++ v ∧
      (∀ c ∈ u, isWS c = true) ∧ (∀ c ∈ v, isWS c = true) ∧
      (normalize_name (some s)).toList = pyLower (pyStrip s.toList) := by
  refine ⟨rfl, rfl, ?_⟩
  intro s
  obtain ⟨u, v, hdec, hu, hv⟩ := pyStrip_decomp s.toList
  refine ⟨u, v, hdec, hu, hv, ?_⟩
  by_cases hs : s = ""
  · subst hs
    rfl
  · have hf : strFalsy (some s) = false := by simpa [strFalsy] using hs
    simp [normalize_name, hf, pyNorm, toList_mk]

/-- C7 (counterexample): the claimed equivalence "similarity is 1.0 iff the
normalized strings are equal" fails on empty input: both normalizations of
`""` are equal, yet the function returns `0.0`, not `1.0`. -/
theorem claim_C7_counterexample :
    pyNormS "" = pyNormS "" ∧
    calculate_name_similarity (some "") (some "") = 0 ∧
    calculate_name_similarity (some "") (some "") ≠ 1 := by
  with_unfolding_all decide

/-- C7 (amended): similarity always lies in `[0, 1]`; for non-empty inputs
it equals `1.0` exactly when the normalized strings are equal; and it is
`0.0` whenever either input is empty or missing. -/
theorem claim_C7_amended :
    (∀ x y : Option String,
      0 ≤ calculate_name_similarity x y ∧ calculate_name_similarity x y ≤ 1) ∧
    (∀ x y : Option String, strFalsy x = false → strFalsy y = false →
      (calculate_name_similarity x y = 1 ↔
        pyNorm (x.getD "").toList = pyNorm (y.getD "").toList)) ∧
    (∀ x y : Option String, strFalsy x = true ∨ strFalsy y = true →
      calculate_name_similarity x y = 0) := by
  refine ⟨fun x y => ⟨calcSim_nonneg x y, calcSim_le_one x y⟩, ?_, ?_⟩
  · intro x y hx hy
    exact calcSim_eq_one_iff (by simp [hx, hy])
  · intro x y h
    rcases h with h | h
    · exact calcSim_falsy (by simp [h])
    · exact calcSim_falsy (by simp [h])

/-- C7 (witness): the amended statement at concrete inputs — bounds for the
pair `("ab", "bacb")`, the equality criterion for `("Brian", " BRIAN ")`,
and the zero rule for a missing first argument. -/
theorem claim_C7_witness :
    (0 ≤ calculate_name_similarity (some "ab") (some "bacb") ∧
      calculate_name_similarity (some "ab") (some "bacb") ≤ 1) ∧
    (calculate_name_similarity (some "Brian") (some " BRIAN ") = 1 ↔
      pyNorm ("Brian" : String).toList = pyNorm (" BRIAN " : String).toList) ∧
    calculate_name_similarity none (some "x") = 0 :=
  ⟨claim_C7_amended.1 (some "ab") (some "bacb"),
   claim_C7_amended.2.1 (some "Brian") (some " BRIAN ") (by decide) (by decide),
   claim_C7_amended.2.2 none (some "x") (Or.inl (by decide))⟩

/-- C5 (counterexample): with an empty query name, `find_best_match` returns
no match even when a whitespace-only candidate has the same (empty)
normalization as the query, contradicting the unconditional claim. -/
theorem claim_C5_counterexample :
    strFalsy (some " ") = false ∧ pyNormS " " = pyNormS "" ∧
    find_best_match "" [("id1", some " ")] (3/4) = none := by
  decide

/-- C5 (amended): for a non-empty query name, if some candidate's
normalization equals the query's and no earlier candidate's does, then
`find_best_match` returns that candidate with score `1.0` and tier
`'exact'`, regardless of every other candidate (including later ones) and
of the threshold. -/
theorem claim_C5_amended (name : String) (th : ℚ)
    (pre post : List (String × Option String)) (cid cnm : String)
    (hname : name ≠ "")
    (hpre : ∀ c ∈ pre, ¬ exactFor (pyNorm name.toList) c)
    (hcn : cnm ≠ "") (hnorm : pyNorm cnm.toList = pyNorm name.toList) :
    find_best_match name (pre ++ (cid, some cnm) :: post) th =
      some (some cid, 1, "exact") := by
  unfold find_best_match
  have h1 : decide (name = "") = false := by simpa using hname
  have h2 : (pre ++ (cid, some cnm) :: post).isEmpty = false := by
    cases pre <;> rfl
  rw [if_neg (by simp [h1, h2])]
  exact findLoop_exact (pyNorm name.toList) th pre cid cnm post 0 none hpre hcn hnorm

/-- C5 (witness): the amended statement at a concrete input — the second
candidate matches exactly after normalization and is returned with tier
`'exact'` although a non-matching candidate precedes it. -/
theorem claim_C5_witness :
    find_best_match "Brian K" [("id0", some "Xy"), ("id1", some " brian k ")] (3/4) =
      some (some "id1", 1, "exact") :=
  claim_C5_amended "Brian K" (3/4) [("id0", some "Xy")] [] "id1" " brian k "
    (by decide)
    (by
      intro c hc
      have hc' : c = ("id0", some "Xy") := by simpa using hc
      subst hc'
      rintro ⟨_, h2⟩
      exact absurd h2 (by decide))
    (by decide) (by decide)

/-- C6 (counterexample): a candidate whose score is exactly the threshold
`10/11` is accepted, but with tier `'high'` (its score is ≥ 0.9), not
`'medium'` as the claim states for every threshold. -/
theorem claim_C6_counterexample :
    find_best_match "abcdef" [("id1", some "abcde")] (10/11) =
      some (some "id1", 10/11, "high") ∧ ("high" : String) ≠ "medium" := by
  constructor
  · with_unfolding_all decide
  · decide

/-- C6 (amended): with a non-empty query, a non-empty candidate list and no
exact match, `find_best_match` accepts exactly when the maximum similarity
score reaches the threshold; the returned score is that maximum, and the
tier is `'high'` iff the score is ≥ 0.9 and `'medium'` iff it is < 0.9 —
in particular a candidate scoring exactly the threshold is accepted, with
tier `'medium'` exactly when that score is below 0.9. -/
theorem claim_C6_amended (name : String) (cands : List (String × Option String))
    (th : ℚ) (hname : name ≠ "") (hcands : cands ≠ [])
    (hnoex : ∀ c ∈ cands, ¬ exactFor (pyNorm name.toList) c) :
    (find_best_match name cands th = none ↔ bestScore name cands < th) ∧
    (∀ bid s t, find_best_match name cands th = some (bid, s, t) →
      s = bestScore name cands ∧ th ≤ s ∧
      (t = "high" ↔ (9 : ℚ)/10 ≤ s) ∧ (t = "medium" ↔ s < 9/10)) := by
  have h1 : decide (name = "") = false := by simpa using hname
  have h2 : cands.isEmpty = false := by
    cases cands with
    | nil => exact absurd rfl hcands
    | cons c rest => rfl
  constructor
  · unfold find_best_match
    rw [if_neg (by simp [h1, h2])]
    exact findLoop_none_iff (pyNorm name.toList) th cands 0 none hnoex
  · intro bid s t hres
    unfold find_best_match at hres
    rw [if_neg (by simp [h1, h2])] at hres
    obtain ⟨hs, hth, htier⟩ :=
      findLoop_some_shape (pyNorm name.toList) th cands 0 none bid s t hnoex hres
    refine ⟨hs, hth, ?_, ?_⟩
    · by_cases h9 : (9 : ℚ)/10 ≤ s
      · rw [if_pos h9] at htier
        simp [htier, h9]
      · rw [if_neg h9] at htier
        subst htier
        constructor
        · intro h
          exact absurd h (by decide)
        · intro h
          exact absurd h h9
    · by_cases h9 : (9 : ℚ)/10 ≤ s
      · rw [if_pos h9] at htier
        subst htier
        constructor
        · intro h
          exact absurd h (by decide)
        · intro h
          exact absurd h9 (not_le.mpr h)
      · rw [if_neg h9] at htier
        simp [htier, lt_of_not_ge h9]

/-- C6 (witness): the acceptance criterion of the amended statement at a
concrete input — with threshold `3/4` and candidate `"abcde"` against query
`"abcdef"`, rejection is equivalent to the maximum score being below the
threshold. -/
theorem claim_C6_witness :
    find_best_match "abcdef" [("id1", some "abcde")] (3/4) = none ↔
      bestScore "abcdef" [("id1", some "abcde")] < 3/4 :=
  (claim_C6_amended "abcdef" [("id1", some "abcde")] (3/4) (by decide)
    (by decide)
    (by
      intro c hc
      have hc' : c = ("id1", some "abcde") := by simpa using hc
      subst hc'
      rintro ⟨_, h2⟩
      exact absurd h2 (by decide))).1

/-- C9: whenever `find_best_match` returns a concrete candidate id, that id
belongs to a candidate of the list whose stored name is a real (non-null,
non-empty) string — null- or empty-named candidates are skipped and can
never be the returned match, and the call is total. -/
theorem claim_C9 (name : String) (cands : List (String × Option String)) (th : ℚ)
    (bid : Option String) (s : ℚ) (t : String) (i : String)
    (hres : find_best_match name cands th = some (bid, s, t)) (hb : bid = some i) :
    ∃ c ∈ cands, c.1 = i ∧ ∃ nm, c.2 = some nm ∧ nm ≠ "" := by
  unfold find_best_match at hres
  split at hres
  · exact absurd hres (by simp)
  · rcases findLoop_id_good (pyNorm name.toList) th cands 0 none bid s t hres i hb
      with h | hgood
    · exact absurd h (by simp)
    · exact hgood

/-- C9 (witness): the theorem applied to a concrete run whose returned id is
`"id1"`, exhibiting the matching real-named candidate. -/
theorem claim_C9_witness :
    ∃ c ∈ [(("id1" : String), some ("abcde" : String))],
      c.1 = "id1" ∧ ∃ nm, c.2 = some nm ∧ nm ≠ "" :=
  claim_C9 "abcdef" [("id1", some "abcde")] (3/4) (some "id1") (10/11) "high" "id1"
    (by with_unfolding_all decide) rfl

theorem spRowUpdate_none {m : List (String × String)} {j : SPJob}
    (h : j.sales_person_name = none) : spRowUpdate m j = j := by
  unfold spRowUpdate
  rw [h]

theorem spRowUpdate_some {m : List (String × String)} {j : SPJob} {nm : String}
    (h : j.sales_person_name = some nm) :
    spRowUpdate m j =
      (match match_name_to_salesperson (some nm) m with
       | none => j
       | some mid =>
           if (decide (mid ≠ "") && decide (j.sales_person_id ≠ some mid)) = true
           then { j with sales_person_id := some mid } else j) := by
  unfold spRowUpdate
  rw [h]

theorem spRowUpdate_idem (m : List (String × String)) (j : SPJob) :
    spRowUpdate m (spRowUpdate m j) = spRowUpdate m j := by
  cases hn : j.sales_person_name with
  | none => rw [spRowUpdate_none hn, spRowUpdate_none hn]
  | some nm =>
      rw [spRowUpdate_some hn]
      cases hm : match_name_to_salesperson (some nm) m with
      | none =>
          dsimp only
          rw [spRowUpdate_some hn, hm]
      | some mid =>
          dsimp only
          by_cases hg : (decide (mid ≠ "") && decide (j.sales_person_id ≠ some mid)) = true
          · rw [if_pos hg]
            have hn' : ({ j with sales_person_id := some mid } : SPJob
                ).sales_person_name = some nm := hn
            rw [spRowUpdate_some hn', hm]
            dsimp only
            rw [if_neg (by simp)]
          · rw [if_neg hg, spRowUpdate_some hn, hm]
            dsimp only
            rw [if_neg hg]

/-- C1 (counterexample): a job whose `sales_person_id` is already set to
`"sp-old"` is overwritten by `update_jobs_salesperson_links` when the name
match yields a different id — the linkage pass does not restrict itself to
rows whose foreign key is NULL. -/
theorem claim_C1_counterexample :
    (⟨"j1", some "Brian", some "sp-old"⟩ : SPJob).sales_person_id = some "sp-old" ∧
    update_jobs_salesperson_links [("Brian", "sp-new")]
        [⟨"j1", some "Brian", some "sp-old"⟩] =
      [⟨"j1", some "Brian", some "sp-new"⟩] := by
  decide

/-- C1 (amended): the quote-number linkage pass updates only rows whose
`booked_opportunity_id` is NULL and leaves every already-linked row
unchanged; the salesperson-link pass may overwrite an already-set
`sales_person_id` when the recomputed match differs, but it is convergent:
an immediate second run over its own output changes no row. -/
theorem claim_C1_amended :
    (∀ (bos : List BORec) (lss : List LSRec) (i : ℕ), i < lss.length →
      (lss.getD i default).booked_opportunity_id ≠ none →
      (link_lead_status_to_booked_opportunities bos lss).getD i default =
        lss.getD i default) ∧
    (∀ (m : List (String × String)) (jobs : List SPJob),
      update_jobs_salesperson_links m (update_jobs_salesperson_links m jobs) =
        update_jobs_salesperson_links m jobs) := by
  constructor
  · intro bos lss i hi hnn
    unfold link_lead_status_to_booked_opportunities
    rw [getD_map_of_lt _ _ _ hi]
    rw [if_neg hnn]
  · intro m jobs
    unfold update_jobs_salesperson_links
    rw [List.map_map]
    apply List.map_congr_left
    intro j _
    exact spRowUpdate_idem m j

/-- C1 (witness): the amended statement at concrete inputs — an
already-linked `lead_status` row is untouched by the quote pass even though
an opportunity with the same quote number exists, and the salesperson pass
is a no-op on its own output. -/
theorem claim_C1_witness :
    (link_lead_status_to_booked_opportunities
        [⟨"bo9", some "Q1", some "c1", none, none, none⟩]
        [⟨"ls1", some "Q1", some "bo1"⟩]).getD 0 default =
      ([⟨"ls1", some "Q1", some "bo1"⟩] : List LSRec).getD 0 default ∧
    update_jobs_salesperson_links [("Brian", "sp-new")]
        (update_jobs_salesperson_links [("Brian", "sp-new")]
          [⟨"j1", some "Brian", some "sp-old"⟩]) =
      update_jobs_salesperson_links [("Brian", "sp-new")]
        [⟨"j1", some "Brian", some "sp-old"⟩] :=
  ⟨claim_C1_amended.1 [⟨"bo9", some "Q1", some "c1", none, none, none⟩]
      [⟨"ls1", some "Q1", some "bo1"⟩] 0 (by decide) (by decide),
   claim_C1_amended.2 [("Brian", "sp-new")] [⟨"j1", some "Brian", some "sp-old"⟩]⟩

/-- C8 (counterexample): strategy 2 normalizes only the job's email — a
customer whose stored email is `"A@x.com"` is not matched by a job email
`"a@x.com"` although the two are equal after lower-casing, so the job stays
unlinked (names play no role in this failure). -/
theorem claim_C8_counterexample :
    sqlTrim (sqlLower "a@x.com") = sqlTrim (sqlLower "A@x.com") ∧
    link_jobs_to_customers [] [⟨"c1", some "A@x.com", none, some "Alice"⟩]
        [⟨"j1", none, some "a@x.com", none, some "Bob"⟩] =
      [⟨"j1", none, some "a@x.com", none, some "Bob"⟩] := by
  decide

/-- C8 (amended): if a job's `customer_id` is unset, no strategy-1
opportunity matches it, and the strategy-2 scan finds a first matching
customer `c` — in particular one whose stored email equals, verbatim, the
trimmed lower-cased job email — then the full pass links the job to `c`;
no hypothesis about any name is needed, so the email match alone suffices
even when the names differ. -/
theorem claim_C8_amended (bos : List BORec) (cs : List CustRec) (jobs : List JobRow)
    (j : JobRow) (c : CustRec)
    (hmem : j ∈ jobs) (hnull : j.customer_id = none)
    (hs1 : ∀ bo ∈ bos, s1Cond j bo = false)
    (hs2 : cs.find? (s2Cond j) = some c)
    (_hemail : ∃ je, j.customer_email = some je ∧ c.email = some (sqlTrim (sqlLower je))) :
    { j with customer_id := some c.id } ∈ link_jobs_to_customers bos cs jobs := by
  unfold link_jobs_to_customers
  have hfind1 : bos.find? (s1Cond j) = none := by
    rw [List.find?_eq_none]
    intro bo hbo
    simp [hs1 bo hbo]
  have h1 : j ∈ strategy1 bos jobs := by
    unfold strategy1
    have := List.mem_map_of_mem
      (fun j' : JobRow =>
        if j'.customer_id = none then
          match bos.find? (s1Cond j') with
          | some bo => { j' with customer_id := bo.customer_id }
          | none => j'
        else j') hmem
    simpa [hnull, hfind1] using this
  unfold strategy2
  have := List.mem_map_of_mem
    (fun j' : JobRow =>
      if j'.customer_id = none then
        match cs.find? (s2Cond j') with
        | some c' => { j' with customer_id := some c'.id }
        | none => j'
      else j') h1
  simpa [hnull, hs2] using this

/-- C8 (witness): the amended statement at concrete inputs — a job with
email `" A@X.com "` and name `"Bob"` is linked to the customer `"c1"` whose
stored email is the trimmed lower-cased `"a@x.com"` but whose name is
`"Alice"`. -/
theorem claim_C8_witness :
    ({ id := "j1", customer_id := some "c1", customer_email := some " A@X.com ",
       customer_phone := none, customer_name := some "Bob" } : JobRow) ∈
      link_jobs_to_customers [] [⟨"c1", some "a@x.com", none, some "Alice"⟩]
        [⟨"j1", none, some " A@X.com ", none, some "Bob"⟩] :=
  claim_C8_amended [] [⟨"c1", some "a@x.com", none, some "Alice"⟩]
    [⟨"j1", none, some " A@X.com ", none, some "Bob"⟩]
    ⟨"j1", none, some " A@X.com ", none, some "Bob"⟩
    ⟨"c1", some "a@x.com", none, some "Alice"⟩
    (by decide) rfl (by intro bo hbo; simp at hbo) (by decide)
    ⟨" A@X.com ", rfl, by decide⟩

/-- C2: the modelled Level-1 detector flags exactly the records that carry a
complete collision tuple, collide with another record on it, and are not the
earliest-created member of their colliding group; every flagged record
carries the fixed confidence `0.99`, and the record itself is returned
unchanged. -/
theorem claim_C2 (batch : List AJob) (i : ℕ) (hi : i < batch.length) :
    ((detect_level_1_exact_duplicates batch).getD i default).1 = batch.getD i default ∧
    (((detect_level_1_exact_duplicates batch).getD i default).2.1 = true ↔
      (level1Key (batch.getD i default) ≠ none ∧
       (∃ k, k < batch.length ∧ k ≠ i ∧
          level1Key (batch.getD k default) = level1Key (batch.getD i default)) ∧
       ¬ (∀ k, k < batch.length → k ≠ i →
            level1Key (batch.getD k default) = level1Key (batch.getD i default) →
            createdBeforeA batch i k = false))) ∧
    (((detect_level_1_exact_duplicates batch).getD i default).2.1 = true →
      ((detect_level_1_exact_duplicates batch).getD i default).2.2 = 99/100) := by
  unfold detect_level_1_exact_duplicates
  rw [getD_range_map _ _ _ hi]
  refine ⟨rfl, ?_, ?_⟩
  · show (decide (level1Key (batch.getD i default) ≠ none) &&
      ((List.range batch.length).any fun k =>
        decide (k ≠ i) &&
        decide (level1Key (batch.getD k default) = level1Key (batch.getD i default)) &&
        createdBeforeA batch i k)) = true ↔ _
    simp only [Bool.and_eq_true, decide_eq_true_eq, List.any_eq_true, List.mem_range]
    constructor
    · rintro ⟨hkey, k, hk, ⟨hki, hkeq⟩, hbef⟩
      refine ⟨hkey, ⟨k, hk, hki, hkeq⟩, ?_⟩
      intro hall
      rw [hall k hk hki hkeq] at hbef
      exact Bool.false_ne_true hbef
    · rintro ⟨hkey, _, hnall⟩
      refine ⟨hkey, ?_⟩
      by_contra hno
      apply hnall
      intro k hk hki hkeq
      rcases Bool.eq_false_or_eq_true (createdBeforeA batch i k) with h | h
      · exact absurd ⟨k, hk, ⟨hki, hkeq⟩, h⟩ hno
      · exact h
  · intro hflag
    show (if (decide (level1Key (batch.getD i default) ≠ none) && _) = true
      then (99 : ℚ)/100 else 0) = 99/100
    rw [if_pos hflag]

/-- C2 (witness): a two-record batch colliding on the full tuple — the later
record is returned unchanged and, being flagged, carries confidence `0.99`. -/
theorem claim_C2_witness :
    ((detect_level_1_exact_duplicates
        [⟨some "c", some 0, some "Residential Move", some 0, some "o", some "d", some 1000⟩,
         ⟨some "c", some 0, some "Residential Move", some 0, some "o", some "d", some 1000⟩]
      ).getD 1 default).1 =
      ([⟨some "c", some 0, some "Residential Move", some 0, some "o", some "d", some 1000⟩,
        ⟨some "c", some 0, some "Residential Move", some 0, some "o", some "d", some 1000⟩]
        : List AJob).getD 1 default ∧
    ((detect_level_1_exact_duplicates
        [⟨some "c", some 0, some "Residential Move", some 0, some "o", some "d", some 1000⟩,
         ⟨some "c", some 0, some "Residential Move", some 0, some "o", some "d", some 1000⟩]
      ).getD 1 default).2.2 = 99/100 :=
  ⟨(claim_C2 _ 1 (by decide)).1, (claim_C2 _ 1 (by decide)).2.2 (by decide)⟩

theorem dupPass1_length (jobs : List DupJob) : (dupPass1 jobs).length = jobs.length := by
  simp [dupPass1]

theorem dupPass1_fields (jobs : List DupJob) (k : ℕ) (hk : k < jobs.length) :
    ((dupPass1 jobs).getD k default).job_id = (jobs.getD k default).job_id ∧
    ((dupPass1 jobs).getD k default).customer_id = (jobs.getD k default).customer_id ∧
    ((dupPass1 jobs).getD k default).job_date = (jobs.getD k default).job_date ∧
    ((dupPass1 jobs).getD k default).total_estimated_cost
      = (jobs.getD k default).total_estimated_cost ∧
    ((dupPass1 jobs).getD k default).created_at = (jobs.getD k default).created_at := by
  unfold dupPass1
  rw [getD_range_map _ _ _ hk]
  dsimp only
  split <;> simp

theorem dupPass1_simKey (jobs : List DupJob) (k : ℕ) (hk : k < jobs.length) :
    simKey ((dupPass1 jobs).getD k default) = simKey (jobs.getD k default) := by
  obtain ⟨_, h2, h3, h4, _⟩ := dupPass1_fields jobs k hk
  unfold simKey
  rw [h2, h3, h4]

theorem dupPass1_precedes (jobs : List DupJob) (i k : ℕ)
    (hi : i < jobs.length) (hk : k < jobs.length) :
    precedes (dupPass1 jobs) i k = precedes jobs i k := by
  unfold precedes
  rw [(dupPass1_fields jobs k hk).2.2.2.2, (dupPass1_fields jobs i hi).2.2.2.2]

/-- C10 (counterexample): rows 1 and 2 form a similarity partition (equal
non-null keys) whose earliest member is row 1; yet after
`detect_duplicate_jobs` both rows are flagged — row 1 through the `job_id`
partitioning — so the partition retains no unflagged member and its
row-number-1 record does not stay unflagged. -/
theorem claim_C10_counterexample :
    simKey (⟨some "X", some "cust", some 10, some 100, 1, false⟩ : DupJob) =
      simKey (⟨none, some "cust", some 10, some 100, 2, false⟩ : DupJob) ∧
    simKey (⟨some "X", some "cust", some 10, some 100, 1, false⟩ : DupJob) ≠ none ∧
    precedes
      [⟨some "X", none, none, none, 0, false⟩,
       ⟨some "X", some "cust", some 10, some 100, 1, false⟩,
       ⟨none, some "cust", some 10, some 100, 2, false⟩] 2 1 = true ∧
    ((detect_duplicate_jobs
      [⟨some "X", none, none, none, 0, false⟩,
       ⟨some "X", some "cust", some 10, some 100, 1, false⟩,
       ⟨none, some "cust", some 10, some 100, 2, false⟩]).getD 1 default).is_duplicate
      = true ∧
    ((detect_duplicate_jobs
      [⟨some "X", none, none, none, 0, false⟩,
       ⟨some "X", some "cust", some 10, some 100, 1, false⟩,
       ⟨none, some "cust", some 10, some 100, 2, false⟩]).getD 2 default).is_duplicate
      = true := by
  decide

/-- C10 (amended): `detect_duplicate_jobs` only ever sets `is_duplicate`
from false to true and never clears an already-set flag; and a record that
no same-`job_id` row and no same-similarity-key row strictly precedes (the
row-number-1 record of both of its partitions) is never flagged by the
pass — but a record that is earliest only in its similarity partition may
still be flagged through the `job_id` partitioning. -/
theorem claim_C10_amended (jobs : List DupJob) (i : ℕ) (hi : i < jobs.length) :
    ((jobs.getD i default).is_duplicate = true →
      ((detect_duplicate_jobs jobs).getD i default).is_duplicate = true) ∧
    ((jobs.getD i default).is_duplicate = false →
      (∀ k, k < jobs.length → k ≠ i →
        (jobs.getD k default).job_id = (jobs.getD i default).job_id →
        precedes jobs i k = false) →
      (∀ k, k < jobs.length → k ≠ i →
        simKey (jobs.getD k default) = simKey (jobs.getD i default) →
        precedes jobs i k = false) →
      ((detect_duplicate_jobs jobs).getD i default).is_duplicate = false) := by
  have hL1 : (dupPass1 jobs).length = jobs.length := dupPass1_length jobs
  constructor
  · intro hd
    have e1 : (dupPass1 jobs).getD i default = jobs.getD i default := by
      unfold dupPass1
      rw [getD_range_map _ _ _ hi]
      dsimp only
      rw [if_neg (by rw [hd]; simp)]
    have e2 : (detect_duplicate_jobs jobs).getD i default
        = (dupPass1 jobs).getD i default := by
      unfold detect_duplicate_jobs dupPass2
      rw [getD_range_map _ _ _ (by omega : i < (dupPass1 jobs).length)]
      dsimp only
      rw [if_neg (by rw [e1, hd]; simp)]
    rw [e2, e1]
    exact hd
  · intro hd hjob hsim
    have e1 : (dupPass1 jobs).getD i default = jobs.getD i default := by
      unfold dupPass1
      rw [getD_range_map _ _ _ hi]
      dsimp only
      have hany : ((List.range jobs.length).any fun k =>
          decide (k ≠ i) && decide ((jobs.getD k default).job_id
            = (jobs.getD i default).job_id) && precedes jobs i k) = false := by
        rw [List.any_eq_false]
        intro k hk
        rw [List.mem_range] at hk
        by_cases hki : k = i
        · simp [hki]
        · by_cases hkeq : (jobs.getD k default).job_id = (jobs.getD i default).job_id
          · simp [hki, hkeq, hjob k hk hki hkeq]
          · have hdec : decide ((jobs.getD k default).job_id
                = (jobs.getD i default).job_id) = false := decide_eq_false hkeq
            rw [hdec]
            simp
      rw [if_neg (by rw [hany]; simp)]
    have e2 : (detect_duplicate_jobs jobs).getD i default
        = (dupPass1 jobs).getD i default := by
      unfold detect_duplicate_jobs dupPass2
      rw [getD_range_map _ _ _ (by omega : i < (dupPass1 jobs).length)]
      dsimp only
      have hany2 : ((List.range (dupPass1 jobs).length).any fun k =>
          decide (k ≠ i) && decide (simKey ((dupPass1 jobs).getD k default)
            = simKey ((dupPass1 jobs).getD i default)) &&
          precedes (dupPass1 jobs) i k) = false := by
        rw [List.any_eq_false]
        intro k hk
        rw [List.mem_range, hL1] at hk
        by_cases hki : k = i
        · simp [hki]
        · rw [dupPass1_simKey jobs k hk, dupPass1_simKey jobs i hi,
            dupPass1_precedes jobs i k hi hk]
          by_cases hkeq : simKey (jobs.getD k default) = simKey (jobs.getD i default)
          · simp [hki, hkeq, hsim k hk hki hkeq]
          · have hdec : decide (simKey (jobs.getD k default)
                = simKey (jobs.getD i default)) = false := decide_eq_false hkeq
            rw [hdec]
            simp
      rw [if_neg (by rw [hany2]; simp)]
    rw [e2, e1]
    exact hd

/-- C10 (witness): the amended statement at concrete inputs — an
already-flagged record stays flagged, and the record that is earliest in
both of its partitions stays unflagged. -/
theorem claim_C10_witness :
    ((detect_duplicate_jobs
        [⟨some "X", some "c", some 1, some 5, 0, true⟩]).getD 0 default).is_duplicate
      = true ∧
    ((detect_duplicate_jobs
        [⟨some "X", some "c", some 1, some 5, 0, false⟩,
         ⟨some "X", some "c", some 1, some 5, 1, false⟩]).getD 0 default).is_duplicate
      = false :=
  ⟨(claim_C10_amended [⟨some "X", some "c", some 1, some 5, 0, true⟩] 0
      (by decide)).1 (by decide),
   (claim_C10_amended
      [⟨some "X", some "c", some 1, some 5, 0, false⟩,
       ⟨some "X", some "c", some 1, some 5, 1, false⟩] 0 (by decide)).2
      (by decide) (by decide) (by decide)⟩

end DAD
